import Mathlib

/-!
Shallow embedding of `src/clmr/ser.rs` from the `ssb-legacy-msg` crate: the
encoder of the compact legacy message representation (CLMR).

Modelling conventions:
* A byte is a natural number (every produced byte is `< 256` by construction).
* A sink (Rust's `std::io::Write`) is a state type `σ` with an operation
  `writeAll : σ → List Nat → Option ε × σ` standing for `write_all`: it either
  succeeds (first component `none`) with the updated sink state, or fails with
  an io error of type `ε`.
* `f64` values reach the encoder only through their 64-bit IEEE-754 bit
  pattern (`f64::to_bits`), so a timestamp is modelled by that bit pattern, a
  natural number below `2 ^ 64`; `f64::to_bits` and `f64::from_bits` are
  mutually inverse bijections between doubles and bit patterns, so bit-for-bit
  statements about doubles are statements about these numbers.
* The external collaborators are modelled by their documented contracts:
  `ssb-multiformats` values (`Multikey`, `Multihash`, `Multisig`, `Multibox`)
  are opaque and carry the byte sequence their `to_compact` writes; the
  `varu64` crate's encoding is reproduced from its documented format; the
  canonical cbor encoder of `ssb-legacy-msg-data` is an opaque parameter
  `cborEnc : T → Except ζ (List Nat)` that either produces the encoded bytes
  or fails with the encoder's own error.
-/

namespace Clmr

/-- Big-endian byte expansion: the low `k` bytes of `n`, most significant
first. -/
def beBytes : Nat → Nat → List Nat
  | 0, _ => []
  | k + 1, n => beBytes k (n / 256) ++ [n % 256]

/-- The 8 bytes of a 64-bit value in big-endian order, as produced by
`std::mem::transmute(u64::to_be(x))` (independent of host endianness: `to_be`
byte-swaps exactly when the host is little-endian). -/
def u64_be_bytes (n : Nat) : List Nat := beBytes 8 n

/-- Reassemble a big-endian byte sequence into the integer it denotes. -/
def be_bytes_to_nat (bs : List Nat) : Nat :=
  bs.foldl (fun acc b => acc * 256 + b) 0

/-- Number of big-endian payload bytes the `varu64` format uses for a value
that does not fit in a single tag byte. -/
def varu64_len (n : Nat) : Nat :=
  if n < 2 ^ 8 then 1
  else if n < 2 ^ 16 then 2
  else if n < 2 ^ 24 then 3
  else if n < 2 ^ 32 then 4
  else if n < 2 ^ 40 then 5
  else if n < 2 ^ 48 then 6
  else if n < 2 ^ 56 then 7
  else 8

/-- The external `varu64` crate's `encode_write` payload: values below 248 are
a single byte; otherwise a tag byte `247 + k` followed by the `k` big-endian
bytes of the value, with `k` minimal. -/
def varu64_encode (n : Nat) : List Nat :=
  if n < 248 then [n] else (247 + varu64_len n) :: beBytes (varu64_len n) n

/-- External `ssb-multiformats` collaborator: a feed identifier (public key),
opaque here, modelled by the compact byte encoding its `to_compact` writes. -/
structure Multikey where
  to_compact_vec : List Nat

/-- External `ssb-multiformats` collaborator: a message hash, modelled by its
compact encoding. -/
structure Multihash where
  to_compact_vec : List Nat

/-- External `ssb-multiformats` collaborator: a signature, modelled by its
compact encoding. -/
structure Multisig where
  to_compact_vec : List Nat

/-- External `ssb-multiformats` collaborator: an encrypted content box,
modelled by its compact encoding. -/
structure Multibox where
  to_compact_vec : List Nat

/-- Modelled from the spec: the `Content` enum of the crate root (not under
the given serializer source); §3 of the spec: one of two variants,
`Plain(T)` holding an arbitrary serializable payload, or `Encrypted` holding
an opaque encrypted box with its own compact encoding. -/
inductive Content (T : Type) where
  | Encrypted : Multibox → Content T
  | Plain : T → Content T

/-- Modelled from the spec: the `Message<T>` record of the crate root (§3 of
the spec): author identity, u64 sequence, double timestamp (kept as its
IEEE-754 bit pattern), optional previous-message hash, swapped flag, content,
and signature. -/
structure Message (T : Type) where
  author : Multikey
  sequence : Nat
  timestamp : Nat
  previous : Option Multihash
  swapped : Bool
  content : Content T
  signature : Multisig

/-- Modelled from the spec: `Message::is_encrypted` is defined in the crate
root, outside the given source; the §3 invariant fixes its behaviour: true if
and only if `content` is the `Encrypted` variant. -/
def Message.is_encrypted {T : Type} (msg : Message T) : Bool :=
  match msg.content with
  | Content.Encrypted _ => true
  | Content.Plain _ => false

/-- Everything that can go wrong when encoding a `Message` to clmr
(`EncodeClmrError` in `ser.rs`), parametric over the sink's io error type `ε`
and the cbor encoder's error type `ζ` of the external collaborators. -/
inductive EncodeClmrError (ε ζ : Type) where
  | Io : ε → EncodeClmrError ε ζ
  | Content : ζ → EncodeClmrError ε ζ

/-- One `w.write_all(..)?` or `x.to_compact(&mut *w)?` step: write `bs` to the
sink, aborting with `EncodeClmrError::Io` on sink failure (keeping the sink
state the failing write left behind), otherwise continue with `k`. -/
def wstep {σ ε ζ : Type} (writeAll : σ → List Nat → Option ε × σ)
    (bs : List Nat) (w : σ) (k : σ → Except (EncodeClmrError ε ζ) Unit × σ) :
    Except (EncodeClmrError ε ζ) Unit × σ :=
  match writeAll w bs with
  | (some e, w2) => (Except.error (EncodeClmrError.Io e), w2)
  | (none, w2) => k w2

/-- Serialize a `Message` into a writer: `to_clmr` in `ser.rs`. Builds the
flags byte (`0b100` when previous is present, `0b10` when swapped, `0b1` when
encrypted), then writes in order: flags, compact author, varu64 sequence,
big-endian timestamp bits, compact previous (only when present), content
(compact box when encrypted, cbor via `cborEnc` when plain — a cbor failure
aborts with `EncodeClmrError::Content`), and the compact signature. -/
def to_clmr {σ ε ζ T : Type} (writeAll : σ → List Nat → Option ε × σ)
    (cborEnc : T → Except ζ (List Nat)) (msg : Message T) (w : σ) :
    Except (EncodeClmrError ε ζ) Unit × σ :=
  let flags0 : Nat := 0
  let flags1 : Nat := if msg.previous.isSome then flags0 ||| 4 else flags0
  let flags2 : Nat := if msg.swapped then flags1 ||| 2 else flags1
  let flags : Nat := if msg.is_encrypted then flags2 ||| 1 else flags2
  let sigStep : σ → Except (EncodeClmrError ε ζ) Unit × σ := fun w =>
    wstep writeAll msg.signature.to_compact_vec w (fun w2 => (Except.ok (), w2))
  let contentStep : σ → Except (EncodeClmrError ε ζ) Unit × σ := fun w =>
    match msg.content with
    | Content.Encrypted mb => wstep writeAll mb.to_compact_vec w sigStep
    | Content.Plain t =>
      match cborEnc t with
      | Except.error e => (Except.error (EncodeClmrError.Content e), w)
      | Except.ok bs => wstep writeAll bs w sigStep
  let prevStep : σ → Except (EncodeClmrError ε ζ) Unit × σ := fun w =>
    match msg.previous with
    | some mh => wstep writeAll mh.to_compact_vec w contentStep
    | none => contentStep w
  wstep writeAll [flags] w (fun w2 =>
  wstep writeAll msg.author.to_compact_vec w2 (fun w3 =>
  wstep writeAll (varu64_encode msg.sequence) w3 (fun w4 =>
  wstep writeAll (u64_be_bytes msg.timestamp) w4 prevStep)))

/-- The infallible `Vec<u8>` sink: `write_all` appends the bytes to the vector
and never fails, hence the io error type `Empty`. -/
def vecWrite : List Nat → List Nat → Option Empty × List Nat :=
  fun out bs => (none, out ++ bs)

/-- Serialize a `Message` into an owned byte vector: `to_clmr_vec` in
`ser.rs`. Runs `to_clmr` on a fresh growable buffer; the 256-byte pre-sizing
of the Rust code is a capacity hint with no effect on the produced bytes. -/
def to_clmr_vec {ζ T : Type} (cborEnc : T → Except ζ (List Nat))
    (msg : Message T) : Except (EncodeClmrError Empty ζ) (List Nat) :=
  match to_clmr vecWrite cborEnc msg [] with
  | (Except.ok _, out) => Except.ok out
  | (Except.error e, _) => Except.error e

/-- Serialize a `Message` into an owned string: `to_clmr_string` in `ser.rs`.
`String::from_utf8_unchecked` reinterprets the encoded bytes as text with no
validity check whatsoever, so the resulting string is modelled by exactly the
bytes of `to_clmr_vec`. -/
def to_clmr_string {ζ T : Type} (cborEnc : T → Except ζ (List Nat))
    (msg : Message T) : Except (EncodeClmrError Empty ζ) (List Nat) :=
  match to_clmr_vec cborEnc msg with
  | Except.ok v => Except.ok v
  | Except.error e => Except.error e

/-- A sink with limited remaining capacity: `write_all` appends when the bytes
fit and decreases the capacity, and fails (device full) leaving the sink
unchanged when they do not. -/
def budgetWrite : List Nat × Nat → List Nat → Option Unit × (List Nat × Nat) :=
  fun s bs =>
    if bs.length ≤ s.2 then (none, (s.1 ++ bs, s.2 - bs.length))
    else (some (), s)

/-- The flags byte as §4.1 of the spec lays it out: bit 2 for has-previous,
bit 1 for swapped, bit 0 for encrypted, all other bits zero. -/
def clmr_flags {T : Type} (msg : Message T) : Nat :=
  (if msg.previous.isSome then 4 else 0) +
    (if msg.swapped then 2 else 0) +
    (if msg.is_encrypted then 1 else 0)

/-- Bytes of the conditional previous field: the compact encoding of the hash
when present, nothing (zero bytes) when absent. -/
def clmr_prev_bytes {T : Type} (msg : Message T) : List Nat :=
  match msg.previous with
  | some mh => mh.to_compact_vec
  | none => []

/-- The header the encoder writes before the content field: flags byte,
compact author, varu64 sequence, 8 timestamp bytes, optional compact
previous. -/
def clmr_header {T : Type} (msg : Message T) : List Nat :=
  clmr_flags msg :: (msg.author.to_compact_vec ++ varu64_encode msg.sequence ++
    u64_be_bytes msg.timestamp ++ clmr_prev_bytes msg)

/-- The bytes of the content field when it can be encoded: the compact box for
encrypted content, the cbor bytes for plain content. -/
def clmr_content_ok {ζ T : Type} (cborEnc : T → Except ζ (List Nat))
    (msg : Message T) (cb : List Nat) : Prop :=
  match msg.content with
  | Content.Encrypted mb => cb = mb.to_compact_vec
  | Content.Plain t => cborEnc t = Except.ok cb

/-- Every byte `to_clmr` hands to a never-failing sink: the full encoding on
success, and only the header when the plain content fails to cbor-encode. -/
def clmr_written {ζ T : Type} (cborEnc : T → Except ζ (List Nat))
    (msg : Message T) : List Nat :=
  match msg.content with
  | Content.Encrypted mb =>
    clmr_header msg ++ mb.to_compact_vec ++ msg.signature.to_compact_vec
  | Content.Plain t =>
    match cborEnc t with
    | Except.ok cb => clmr_header msg ++ cb ++ msg.signature.to_compact_vec
    | Except.error _ => clmr_header msg

/-- Whether the encoding of the message can succeed at all on a never-failing
sink: only the cbor encoding of plain content can refuse. -/
def clmr_status {ζ T : Type} (cborEnc : T → Except ζ (List Nat))
    (msg : Message T) : Except ζ Unit :=
  match msg.content with
  | Content.Encrypted _ => Except.ok ()
  | Content.Plain t =>
    match cborEnc t with
    | Except.ok _ => Except.ok ()
    | Except.error e => Except.error e

/-- A sink abstraction for determinism statements: `bytes` observes the bytes
a sink state has received, `write_all` never fails and appends exactly the
bytes it is given. -/
def Recording {σ ε : Type} (writeAll : σ → List Nat → Option ε × σ)
    (bytes : σ → List Nat) : Prop :=
  ∀ s bs, (writeAll s bs).1 = none ∧ bytes (writeAll s bs).2 = bytes s ++ bs

/-- A cbor encoder for the unit payload, producing the canonical empty-map
byte: concrete collaborator instance for closed-form checks. -/
def cborUnit : Unit → Except Unit (List Nat) := fun _ => Except.ok [160]

/-- A cbor encoder that always refuses: concrete collaborator instance
injecting a content-encoding failure. -/
def cborFail : Unit → Except Unit (List Nat) := fun _ => Except.error ()

/-- A concrete first-of-feed plain message: no previous hash, not swapped,
plain unit content. -/
def msgPlain : Message Unit :=
  { author := ⟨[7, 8]⟩, sequence := 1, timestamp := 0, previous := none,
    swapped := false, content := Content.Plain (), signature := ⟨[9, 9]⟩ }

/-- A concrete later-in-feed message: previous hash present, swapped,
encrypted content, multi-byte varu64 sequence. -/
def msgEnc : Message Unit :=
  { author := ⟨[7, 8]⟩, sequence := 300, timestamp := 2, previous := some ⟨[5, 6]⟩,
    swapped := true, content := Content.Encrypted ⟨[1, 2, 3]⟩, signature := ⟨[9, 9]⟩ }

/-- Running the encoder on the infallible vector sink yields the status
determined by `clmr_status` and appends exactly `clmr_written` to the
buffer. -/
theorem to_clmr_vecWrite_spec {ζ T : Type} (cborEnc : T → Except ζ (List Nat))
    (msg : Message T) (acc : List Nat) :
    to_clmr vecWrite cborEnc msg acc =
      ((match clmr_status cborEnc msg with
        | Except.ok _ => Except.ok ()
        | Except.error e => Except.error (EncodeClmrError.Content e)),
       acc ++ clmr_written cborEnc msg) := by
  obtain ⟨author, sequence, timestamp, previous, swapped, content, signature⟩ := msg
  cases content with
  | Encrypted mb =>
    cases previous <;> cases swapped <;>
      simp [to_clmr, wstep, vecWrite, clmr_written, clmr_header, clmr_prev_bytes,
        clmr_status, clmr_flags, Message.is_encrypted]
  | Plain t =>
    rcases h : cborEnc t with e | cb <;>
    cases previous <;> cases swapped <;>
      simp [to_clmr, wstep, vecWrite, clmr_written, clmr_header, clmr_prev_bytes,
        clmr_status, clmr_flags, Message.is_encrypted, h]

/-- Big-endian expansion produces exactly the requested number of bytes. -/
theorem beBytes_length (k n : Nat) : (beBytes k n).length = k := by
  induction k generalizing n with
  | zero => rfl
  | succ k ih => simp [beBytes, ih]

/-- Reassembling the 8 big-endian bytes of a 64-bit value recovers the value:
the bit-level round-trip of the timestamp field. -/
theorem be_bytes_to_nat_u64 (n : Nat) (h : n < 2 ^ 64) :
    be_bytes_to_nat (u64_be_bytes n) = n := by
  simp only [u64_be_bytes, beBytes, be_bytes_to_nat, List.append_nil,
    List.nil_append, List.cons_append, List.append_assoc, List.foldl_cons,
    List.foldl_nil]
  omega

/-- On a recording sink a write step never aborts and continues in the state
the sink write produced. -/
theorem wstep_recording {σ ε ζ : Type} (writeAll : σ → List Nat → Option ε × σ)
    (bytes : σ → List Nat) (h : Recording writeAll bytes) (bs : List Nat)
    (w : σ) (k : σ → Except (EncodeClmrError ε ζ) Unit × σ) :
    wstep writeAll bs w k = k (writeAll w bs).2 := by
  have h1 := (h w bs).1
  rcases hw : writeAll w bs with ⟨o, w2⟩
  rw [hw] at h1
  cases o with
  | none => simp [wstep, hw]
  | some e => simp at h1

/-- On any recording sink the encoder appends exactly `clmr_written` to the
bytes the sink had already received. -/
theorem to_clmr_recording_spec {σ ε ζ T : Type}
    (writeAll : σ → List Nat → Option ε × σ) (bytes : σ → List Nat)
    (h : Recording writeAll bytes) (cborEnc : T → Except ζ (List Nat))
    (msg : Message T) (w : σ) :
    bytes (to_clmr writeAll cborEnc msg w).2 =
      bytes w ++ clmr_written cborEnc msg := by
  have hb : ∀ s bs, bytes (writeAll s bs).2 = bytes s ++ bs :=
    fun s bs => (h s bs).2
  obtain ⟨author, sequence, timestamp, previous, swapped, content, signature⟩ := msg
  cases content with
  | Encrypted mb =>
    cases previous <;> cases swapped <;>
      simp [to_clmr, wstep_recording writeAll bytes h, hb, clmr_written,
        clmr_header, clmr_prev_bytes, clmr_flags, Message.is_encrypted,
        List.append_assoc]
  | Plain t =>
    rcases hc : cborEnc t with e | cb <;>
    cases previous <;> cases swapped <;>
      simp [to_clmr, wstep_recording writeAll bytes h, hb, clmr_written,
        clmr_header, clmr_prev_bytes, clmr_flags, Message.is_encrypted,
        List.append_assoc, hc]

/-- A write step on a sink whose write succeeds continues with the updated
sink state. -/
theorem wstep_nofail {σ ε ζ : Type} (writeAll : σ → List Nat → Option ε × σ)
    (bs : List Nat) (w : σ) (k : σ → Except (EncodeClmrError ε ζ) Unit × σ)
    (h : (writeAll w bs).1 = none) :
    wstep writeAll bs w k = k (writeAll w bs).2 := by
  rcases hw : writeAll w bs with ⟨o, w2⟩
  rw [hw] at h
  cases o with
  | none => simp [wstep, hw]
  | some e => simp at h

/-- A `Content` error can only arise from the cbor encoder refusing the plain
content; it carries that encoder's own error. -/
theorem to_clmr_content_error_inv {σ ε ζ T : Type}
    (writeAll : σ → List Nat → Option ε × σ) (cborEnc : T → Except ζ (List Nat))
    (msg : Message T) (w : σ) (e : ζ) (w' : σ)
    (h : to_clmr writeAll cborEnc msg w =
      (Except.error (EncodeClmrError.Content e), w')) :
    ∃ t, msg.content = Content.Plain t ∧ cborEnc t = Except.error e := by
  obtain ⟨author, sequence, timestamp, previous, swapped, content, signature⟩ := msg
  simp only [to_clmr, wstep] at h
  repeat' split at h
  all_goals simp_all

/-- An `Io` error can only arise from a failing sink write; it carries the
sink's own error, and the final sink state is the one that failing write left
behind (nothing is written after it). -/
theorem to_clmr_io_error_inv {σ ε ζ T : Type}
    (writeAll : σ → List Nat → Option ε × σ) (cborEnc : T → Except ζ (List Nat))
    (msg : Message T) (w : σ) (e : ε) (w' : σ)
    (h : to_clmr writeAll cborEnc msg w =
      (Except.error (EncodeClmrError.Io e), w')) :
    ∃ w2 bs, writeAll w2 bs = (some e, w') := by
  obtain ⟨author, sequence, timestamp, previous, swapped, content, signature⟩ := msg
  simp only [to_clmr, wstep] at h
  repeat' split at h
  all_goals (simp only [Prod.mk.injEq, Except.error.injEq, Except.ok.injEq,
    EncodeClmrError.Io.injEq, reduceCtorEq, and_false, false_and] at h)
  all_goals (obtain ⟨h1, h2⟩ := h; subst h1; subst h2)
  all_goals exact ⟨_, _, by assumption⟩

/-- When every sink write succeeds and the plain content cbor-encodes, the
encoder succeeds. -/
theorem to_clmr_no_fail {σ ε ζ T : Type}
    (writeAll : σ → List Nat → Option ε × σ) (cborEnc : T → Except ζ (List Nat))
    (msg : Message T) (w : σ)
    (hw : ∀ s bs, (writeAll s bs).1 = none)
    (hc : ∀ t, msg.content = Content.Plain t → ∃ cb, cborEnc t = Except.ok cb) :
    ∃ w', to_clmr writeAll cborEnc msg w = (Except.ok (), w') := by
  obtain ⟨author, sequence, timestamp, previous, swapped, content, signature⟩ := msg
  cases content with
  | Encrypted mb =>
    cases previous <;> simp [to_clmr, wstep_nofail, hw]
  | Plain t =>
    obtain ⟨cb, hcb⟩ := hc t rfl
    cases previous <;> simp [to_clmr, wstep_nofail, hw, hcb]

/-- The flags byte only uses its low three bits. -/
theorem clmr_flags_lt8 {T : Type} (msg : Message T) : clmr_flags msg < 8 := by
  unfold clmr_flags
  split <;> split <;> split <;> omega

/-- Bit 2 of the flags byte is the has-previous indicator. -/
theorem clmr_flags_bit2 {T : Type} (msg : Message T) :
    (clmr_flags msg).testBit 2 = msg.previous.isSome := by
  unfold clmr_flags
  cases hp : msg.previous.isSome <;> cases hs : msg.swapped <;>
    cases he : msg.is_encrypted <;> (try simp only [hp, hs, he]) <;> decide

/-- Bit 1 of the flags byte is the swapped indicator. -/
theorem clmr_flags_bit1 {T : Type} (msg : Message T) :
    (clmr_flags msg).testBit 1 = msg.swapped := by
  unfold clmr_flags
  cases hp : msg.previous.isSome <;> cases hs : msg.swapped <;>
    cases he : msg.is_encrypted <;> (try simp only [hp, hs, he]) <;> decide

/-- Bit 0 of the flags byte is the encrypted indicator. -/
theorem clmr_flags_bit0 {T : Type} (msg : Message T) :
    (clmr_flags msg).testBit 0 = msg.is_encrypted := by
  unfold clmr_flags
  cases hp : msg.previous.isSome <;> cases hs : msg.swapped <;>
    cases he : msg.is_encrypted <;> (try simp only [hp, hs, he]) <;> decide

/-- All bits of the flags byte from bit 3 upwards are zero. -/
theorem clmr_flags_bit_high {T : Type} (msg : Message T) (i : Nat) (h : 3 ≤ i) :
    (clmr_flags msg).testBit i = false := by
  apply Nat.testBit_eq_false_of_lt
  have h8 : (2 : Nat) ^ 3 ≤ 2 ^ i := Nat.pow_le_pow_right (by omega) h
  have := clmr_flags_lt8 msg
  omega

/-- A successful run on the vector sink produces exactly `clmr_written`. -/
theorem to_clmr_vec_ok_out {ζ T : Type} (cborEnc : T → Except ζ (List Nat))
    (msg : Message T) (out : List Nat)
    (h : to_clmr vecWrite cborEnc msg [] = (Except.ok (), out)) :
    out = clmr_written cborEnc msg := by
  rw [to_clmr_vecWrite_spec] at h
  rcases hst : clmr_status cborEnc msg with e | u
  · rw [hst] at h
    simp at h
  · rw [hst] at h
    simp at h
    exact h.symm

/-- A successful run on the vector sink means the content field had an
encoding. -/
theorem to_clmr_ok_content {ζ T : Type} (cborEnc : T → Except ζ (List Nat))
    (msg : Message T) (out : List Nat)
    (h : to_clmr vecWrite cborEnc msg [] = (Except.ok (), out)) :
    ∃ cb, clmr_content_ok cborEnc msg cb := by
  rw [to_clmr_vecWrite_spec] at h
  rcases hmc : msg.content with mb | t
  · exact ⟨mb.to_compact_vec, by simp [clmr_content_ok, hmc]⟩
  · rcases hct : cborEnc t with e | cb
    · simp [clmr_status, hmc, hct] at h
    · exact ⟨cb, by simp [clmr_content_ok, hmc, hct]⟩

/-- With an encodable content field, `clmr_written` is header, content bytes,
then signature. -/
theorem clmr_written_of_content_ok {ζ T : Type}
    (cborEnc : T → Except ζ (List Nat)) (msg : Message T) (cb : List Nat)
    (h : clmr_content_ok cborEnc msg cb) :
    clmr_written cborEnc msg =
      clmr_header msg ++ cb ++ msg.signature.to_compact_vec := by
  rcases hmc : msg.content with mb | t <;>
    simp only [clmr_content_ok, clmr_written, hmc] at h ⊢
  · rw [h]
  · rw [h]

/-- Claim C1: a successful `to_clmr` call writes exactly the concatenation,
in order and with no padding, of the flags byte, the compact author, the
varu64 sequence, the 8 timestamp bytes, the compact previous (only when
present), the content encoding and the compact signature; the total length is
the sum of the field lengths with 1 for flags and 8 for the timestamp. -/
theorem to_clmr_writes_concatenation {ζ T : Type}
    (cborEnc : T → Except ζ (List Nat)) (msg : Message T) (out : List Nat)
    (h : to_clmr vecWrite cborEnc msg [] = (Except.ok (), out)) :
    ∃ cb, clmr_content_ok cborEnc msg cb ∧
      out = [clmr_flags msg] ++ msg.author.to_compact_vec ++
        varu64_encode msg.sequence ++ u64_be_bytes msg.timestamp ++
        clmr_prev_bytes msg ++ cb ++ msg.signature.to_compact_vec ∧
      out.length = 1 + msg.author.to_compact_vec.length +
        (varu64_encode msg.sequence).length + 8 + (clmr_prev_bytes msg).length +
        cb.length + msg.signature.to_compact_vec.length := by
  have hout := to_clmr_vec_ok_out cborEnc msg out h
  obtain ⟨cb, hcb⟩ := to_clmr_ok_content cborEnc msg out h
  have hw := clmr_written_of_content_ok cborEnc msg cb hcb
  refine ⟨cb, hcb, ?_, ?_⟩
  · rw [hout, hw]
    simp [clmr_header, List.append_assoc]
  · rw [hout, hw]
    simp [clmr_header, u64_be_bytes, beBytes_length]
    omega

/-- Witness for C1 at a concrete message: flags 0, author `[7, 8]`, sequence
1, timestamp bits 0, no previous, cbor content `[160]`, signature `[9, 9]`. -/
theorem to_clmr_writes_concatenation_witness :
    ∃ cb, clmr_content_ok cborUnit msgPlain cb ∧
      [0, 7, 8, 1, 0, 0, 0, 0, 0, 0, 0, 0, 160, 9, 9] =
        [clmr_flags msgPlain] ++ msgPlain.author.to_compact_vec ++
        varu64_encode msgPlain.sequence ++ u64_be_bytes msgPlain.timestamp ++
        clmr_prev_bytes msgPlain ++ cb ++ msgPlain.signature.to_compact_vec ∧
      ([0, 7, 8, 1, 0, 0, 0, 0, 0, 0, 0, 0, 160, 9, 9] : List Nat).length =
        1 + msgPlain.author.to_compact_vec.length +
        (varu64_encode msgPlain.sequence).length + 8 +
        (clmr_prev_bytes msgPlain).length + cb.length +
        msgPlain.signature.to_compact_vec.length :=
  to_clmr_writes_concatenation cborUnit msgPlain
    [0, 7, 8, 1, 0, 0, 0, 0, 0, 0, 0, 0, 160, 9, 9] (by rfl)

/-- Claim C2: the first byte written by `to_clmr` has bit 2 set iff previous
is present, bit 1 set iff swapped, bit 0 set iff the content is encrypted,
and bits 3 and up all zero. -/
theorem to_clmr_flags_byte {ζ T : Type} (cborEnc : T → Except ζ (List Nat))
    (msg : Message T) (out : List Nat)
    (h : to_clmr vecWrite cborEnc msg [] = (Except.ok (), out)) :
    ∃ f, out.head? = some f ∧
      f.testBit 2 = msg.previous.isSome ∧
      f.testBit 1 = msg.swapped ∧
      f.testBit 0 = msg.is_encrypted ∧
      ∀ i, 3 ≤ i → f.testBit i = false := by
  have hout := to_clmr_vec_ok_out cborEnc msg out h
  obtain ⟨cb, hcb⟩ := to_clmr_ok_content cborEnc msg out h
  have hw := clmr_written_of_content_ok cborEnc msg cb hcb
  refine ⟨clmr_flags msg, ?_, clmr_flags_bit2 msg, clmr_flags_bit1 msg,
    clmr_flags_bit0 msg, clmr_flags_bit_high msg⟩
  rw [hout, hw]
  simp [clmr_header]

/-- Witness for C2 at the concrete plain message and its encoding. -/
theorem to_clmr_flags_byte_witness :
    ∃ f, ([0, 7, 8, 1, 0, 0, 0, 0, 0, 0, 0, 0, 160, 9, 9] : List Nat).head? = some f ∧
      f.testBit 2 = msgPlain.previous.isSome ∧
      f.testBit 1 = msgPlain.swapped ∧
      f.testBit 0 = msgPlain.is_encrypted ∧
      ∀ i, 3 ≤ i → f.testBit i = false :=
  to_clmr_flags_byte cborUnit msgPlain
    [0, 7, 8, 1, 0, 0, 0, 0, 0, 0, 0, 0, 160, 9, 9] (by rfl)

/-- Claim C3: the timestamp field is exactly 8 bytes, the big-endian bytes of
the timestamp's IEEE-754 bit pattern, written right after the sequence field;
reassembling those bytes as a big-endian 64-bit integer recovers the
timestamp's bit pattern exactly, for every 64-bit pattern (hence bit-for-bit
for every double, including 0.0, negative and subnormal values). -/
theorem to_clmr_timestamp_roundtrip {ζ T : Type}
    (cborEnc : T → Except ζ (List Nat)) (msg : Message T) (out : List Nat)
    (hts : msg.timestamp < 2 ^ 64)
    (h : to_clmr vecWrite cborEnc msg [] = (Except.ok (), out)) :
    (u64_be_bytes msg.timestamp).length = 8 ∧
    be_bytes_to_nat (u64_be_bytes msg.timestamp) = msg.timestamp ∧
    ∃ rest, out = clmr_flags msg :: (msg.author.to_compact_vec ++
      varu64_encode msg.sequence ++ (u64_be_bytes msg.timestamp ++ rest)) := by
  have hout := to_clmr_vec_ok_out cborEnc msg out h
  obtain ⟨cb, hcb⟩ := to_clmr_ok_content cborEnc msg out h
  have hw := clmr_written_of_content_ok cborEnc msg cb hcb
  refine ⟨beBytes_length 8 msg.timestamp, be_bytes_to_nat_u64 msg.timestamp hts,
    clmr_prev_bytes msg ++ (cb ++ msg.signature.to_compact_vec), ?_⟩
  rw [hout, hw]
  simp [clmr_header, List.append_assoc]

/-- Witness for C3 at a message carrying the bit pattern of `-0.0`
(`0x8000000000000000`), a value with a set sign bit. -/
theorem to_clmr_timestamp_roundtrip_witness :
    (u64_be_bytes (Message.timestamp { msgPlain with timestamp := 2 ^ 63 })).length = 8 ∧
    be_bytes_to_nat (u64_be_bytes (Message.timestamp { msgPlain with timestamp := 2 ^ 63 })) =
      Message.timestamp { msgPlain with timestamp := 2 ^ 63 } ∧
    ∃ rest, [0, 7, 8, 1, 128, 0, 0, 0, 0, 0, 0, 0, 160, 9, 9] =
      clmr_flags { msgPlain with timestamp := 2 ^ 63 } ::
        (Multikey.to_compact_vec (Message.author { msgPlain with timestamp := 2 ^ 63 }) ++
          varu64_encode (Message.sequence { msgPlain with timestamp := 2 ^ 63 }) ++
          (u64_be_bytes (Message.timestamp { msgPlain with timestamp := 2 ^ 63 }) ++ rest)) :=
  to_clmr_timestamp_roundtrip cborUnit { msgPlain with timestamp := 2 ^ 63 }
    [0, 7, 8, 1, 128, 0, 0, 0, 0, 0, 0, 0, 160, 9, 9] (by norm_num) (by rfl)

/-- Claim C4: with no previous hash the flags byte has bit 2 clear and the
output holds zero bytes between the timestamp and the content; with a
previous hash bit 2 is set and the bytes right after the timestamp are its
compact encoding. -/
theorem to_clmr_previous_field {ζ T : Type} (cborEnc : T → Except ζ (List Nat))
    (msg : Message T) (out : List Nat)
    (h : to_clmr vecWrite cborEnc msg [] = (Except.ok (), out)) :
    (msg.previous = none → (clmr_flags msg).testBit 2 = false ∧
      ∃ cb, clmr_content_ok cborEnc msg cb ∧
        out = clmr_flags msg :: (msg.author.to_compact_vec ++
          varu64_encode msg.sequence ++ u64_be_bytes msg.timestamp ++
          (cb ++ msg.signature.to_compact_vec))) ∧
    (∀ mh, msg.previous = some mh → (clmr_flags msg).testBit 2 = true ∧
      ∃ rest, out = clmr_flags msg :: (msg.author.to_compact_vec ++
        varu64_encode msg.sequence ++ u64_be_bytes msg.timestamp ++
        (mh.to_compact_vec ++ rest))) := by
  have hout := to_clmr_vec_ok_out cborEnc msg out h
  obtain ⟨cb, hcb⟩ := to_clmr_ok_content cborEnc msg out h
  have hw := clmr_written_of_content_ok cborEnc msg cb hcb
  constructor
  · intro hp
    refine ⟨by rw [clmr_flags_bit2, hp]; rfl, cb, hcb, ?_⟩
    rw [hout, hw]
    simp [clmr_header, clmr_prev_bytes, hp, List.append_assoc]
  · intro mh hp
    refine ⟨by rw [clmr_flags_bit2, hp]; rfl,
      cb ++ msg.signature.to_compact_vec, ?_⟩
    rw [hout, hw]
    simp [clmr_header, clmr_prev_bytes, hp, List.append_assoc]

/-- Witness for C4, covering both cases: the concrete plain message with no
previous hash and the concrete encrypted message with previous `[5, 6]`. -/
theorem to_clmr_previous_field_witness :
    ((msgPlain.previous = none → (clmr_flags msgPlain).testBit 2 = false ∧
      ∃ cb, clmr_content_ok cborUnit msgPlain cb ∧
        [0, 7, 8, 1, 0, 0, 0, 0, 0, 0, 0, 0, 160, 9, 9] =
          clmr_flags msgPlain :: (msgPlain.author.to_compact_vec ++
          varu64_encode msgPlain.sequence ++ u64_be_bytes msgPlain.timestamp ++
          (cb ++ msgPlain.signature.to_compact_vec))) ∧
     (∀ mh, msgPlain.previous = some mh → (clmr_flags msgPlain).testBit 2 = true ∧
      ∃ rest, [0, 7, 8, 1, 0, 0, 0, 0, 0, 0, 0, 0, 160, 9, 9] =
        clmr_flags msgPlain :: (msgPlain.author.to_compact_vec ++
        varu64_encode msgPlain.sequence ++ u64_be_bytes msgPlain.timestamp ++
        (mh.to_compact_vec ++ rest)))) ∧
    ((msgEnc.previous = none → (clmr_flags msgEnc).testBit 2 = false ∧
      ∃ cb, clmr_content_ok cborUnit msgEnc cb ∧
        [7, 7, 8, 249, 1, 44, 0, 0, 0, 0, 0, 0, 0, 2, 5, 6, 1, 2, 3, 9, 9] =
          clmr_flags msgEnc :: (msgEnc.author.to_compact_vec ++
          varu64_encode msgEnc.sequence ++ u64_be_bytes msgEnc.timestamp ++
          (cb ++ msgEnc.signature.to_compact_vec))) ∧
     (∀ mh, msgEnc.previous = some mh → (clmr_flags msgEnc).testBit 2 = true ∧
      ∃ rest, [7, 7, 8, 249, 1, 44, 0, 0, 0, 0, 0, 0, 0, 2, 5, 6, 1, 2, 3, 9, 9] =
        clmr_flags msgEnc :: (msgEnc.author.to_compact_vec ++
        varu64_encode msgEnc.sequence ++ u64_be_bytes msgEnc.timestamp ++
        (mh.to_compact_vec ++ rest)))) :=
  ⟨to_clmr_previous_field cborUnit msgPlain
      [0, 7, 8, 1, 0, 0, 0, 0, 0, 0, 0, 0, 160, 9, 9] (by rfl),
   to_clmr_previous_field cborUnit msgEnc
      [7, 7, 8, 249, 1, 44, 0, 0, 0, 0, 0, 0, 0, 2, 5, 6, 1, 2, 3, 9, 9] (by rfl)⟩

/-- Claim C5: `is_encrypted` agrees with flags bit 0, encrypted messages get
their content field from the compact box encoding, and plain messages get it
from the cbor encoding; the two paths are never mixed. -/
theorem to_clmr_content_path {ζ T : Type} (cborEnc : T → Except ζ (List Nat))
    (msg : Message T) (out : List Nat)
    (h : to_clmr vecWrite cborEnc msg [] = (Except.ok (), out)) :
    (clmr_flags msg).testBit 0 = msg.is_encrypted ∧
    out.head? = some (clmr_flags msg) ∧
    (msg.is_encrypted = true → ∃ mb, msg.content = Content.Encrypted mb ∧
      out = clmr_header msg ++ mb.to_compact_vec ++ msg.signature.to_compact_vec) ∧
    (msg.is_encrypted = false → ∃ t cb, msg.content = Content.Plain t ∧
      cborEnc t = Except.ok cb ∧
      out = clmr_header msg ++ cb ++ msg.signature.to_compact_vec) := by
  have hout := to_clmr_vec_ok_out cborEnc msg out h
  obtain ⟨cb, hcb⟩ := to_clmr_ok_content cborEnc msg out h
  have hw := clmr_written_of_content_ok cborEnc msg cb hcb
  refine ⟨clmr_flags_bit0 msg, ?_, ?_, ?_⟩
  · rw [hout, hw]
    simp [clmr_header]
  · intro he
    rcases hmc : msg.content with mb | t
    · refine ⟨mb, rfl, ?_⟩
      rw [hout, hw]
      simp only [clmr_content_ok, hmc] at hcb
      rw [hcb]
    · exfalso
      simp [Message.is_encrypted, hmc] at he
  · intro he
    rcases hmc : msg.content with mb | t
    · exfalso
      simp [Message.is_encrypted, hmc] at he
    · refine ⟨t, cb, rfl, ?_, ?_⟩
      · simpa only [clmr_content_ok, hmc] using hcb
      · rw [hout, hw]

/-- Witness for C5 at both concrete messages: the plain one (bit 0 clear,
cbor path) and the encrypted one (bit 0 set, compact box path). -/
theorem to_clmr_content_path_witness :
    ((clmr_flags msgPlain).testBit 0 = msgPlain.is_encrypted ∧
     ([0, 7, 8, 1, 0, 0, 0, 0, 0, 0, 0, 0, 160, 9, 9] : List Nat).head? =
       some (clmr_flags msgPlain) ∧
     (msgPlain.is_encrypted = true → ∃ mb, msgPlain.content = Content.Encrypted mb ∧
       [0, 7, 8, 1, 0, 0, 0, 0, 0, 0, 0, 0, 160, 9, 9] =
         clmr_header msgPlain ++ mb.to_compact_vec ++ msgPlain.signature.to_compact_vec) ∧
     (msgPlain.is_encrypted = false → ∃ t cb, msgPlain.content = Content.Plain t ∧
       cborUnit t = Except.ok cb ∧
       [0, 7, 8, 1, 0, 0, 0, 0, 0, 0, 0, 0, 160, 9, 9] =
         clmr_header msgPlain ++ cb ++ msgPlain.signature.to_compact_vec)) ∧
    ((clmr_flags msgEnc).testBit 0 = msgEnc.is_encrypted ∧
     ([7, 7, 8, 249, 1, 44, 0, 0, 0, 0, 0, 0, 0, 2, 5, 6, 1, 2, 3, 9, 9] : List Nat).head? =
       some (clmr_flags msgEnc) ∧
     (msgEnc.is_encrypted = true → ∃ mb, msgEnc.content = Content.Encrypted mb ∧
       [7, 7, 8, 249, 1, 44, 0, 0, 0, 0, 0, 0, 0, 2, 5, 6, 1, 2, 3, 9, 9] =
         clmr_header msgEnc ++ mb.to_compact_vec ++ msgEnc.signature.to_compact_vec) ∧
     (msgEnc.is_encrypted = false → ∃ t cb, msgEnc.content = Content.Plain t ∧
       cborUnit t = Except.ok cb ∧
       [7, 7, 8, 249, 1, 44, 0, 0, 0, 0, 0, 0, 0, 2, 5, 6, 1, 2, 3, 9, 9] =
         clmr_header msgEnc ++ cb ++ msgEnc.signature.to_compact_vec)) :=
  ⟨to_clmr_content_path cborUnit msgPlain
      [0, 7, 8, 1, 0, 0, 0, 0, 0, 0, 0, 0, 160, 9, 9] (by rfl),
   to_clmr_content_path cborUnit msgEnc
      [7, 7, 8, 249, 1, 44, 0, 0, 0, 0, 0, 0, 0, 2, 5, 6, 1, 2, 3, 9, 9] (by rfl)⟩

/-- Claim C6: `to_clmr` fails exactly on sink failures or plain-content cbor
failures: a `Content` error carries the cbor encoder's own error and can only
come from the plain content, an `Io` error carries the sink's own error from
the failing write and the final sink state is the one that write left (no
subsequent field is written), a never-failing sink plus an encodable content
yields success, and a cbor failure on the vector sink aborts right after the
header, writing nothing further. -/
theorem to_clmr_error_conditions {σ ε ζ T : Type}
    (writeAll : σ → List Nat → Option ε × σ) (cborEnc : T → Except ζ (List Nat))
    (msg : Message T) (w : σ) :
    (∀ e w', to_clmr writeAll cborEnc msg w =
        (Except.error (EncodeClmrError.Content e), w') →
      ∃ t, msg.content = Content.Plain t ∧ cborEnc t = Except.error e) ∧
    (∀ e w', to_clmr writeAll cborEnc msg w =
        (Except.error (EncodeClmrError.Io e), w') →
      ∃ w2 bs, writeAll w2 bs = (some e, w')) ∧
    ((∀ s bs, (writeAll s bs).1 = none) →
      (∀ t, msg.content = Content.Plain t → ∃ cb, cborEnc t = Except.ok cb) →
      ∃ w', to_clmr writeAll cborEnc msg w = (Except.ok (), w')) ∧
    (∀ (acc : List Nat) t e, msg.content = Content.Plain t →
      cborEnc t = Except.error e →
      to_clmr vecWrite cborEnc msg acc =
        (Except.error (EncodeClmrError.Content e), acc ++ clmr_header msg)) := by
  refine ⟨fun e w' h => to_clmr_content_error_inv writeAll cborEnc msg w e w' h,
    fun e w' h => to_clmr_io_error_inv writeAll cborEnc msg w e w' h,
    fun hw hc => to_clmr_no_fail writeAll cborEnc msg w hw hc, ?_⟩
  intro acc t e hmc hce
  rw [to_clmr_vecWrite_spec]
  simp [clmr_status, clmr_written, hmc, hce]

/-- Witness for C6: a concrete cbor refusal surfacing as `Content`, a
zero-capacity sink failing with `Io` and ending unchanged, a successful run
on the vector sink, and the concrete header-only abort. -/
theorem to_clmr_error_conditions_witness :
    (∃ t, msgPlain.content = Content.Plain t ∧ cborFail t = Except.error ()) ∧
    (∃ w2 bs, budgetWrite w2 bs = (some (), ([], 0))) ∧
    (∃ w', to_clmr vecWrite cborUnit msgPlain [] = (Except.ok (), w')) ∧
    to_clmr vecWrite cborFail msgPlain [] =
      (Except.error (EncodeClmrError.Content ()), [] ++ clmr_header msgPlain) :=
  ⟨(to_clmr_error_conditions vecWrite cborFail msgPlain []).1 ()
      [0, 7, 8, 1, 0, 0, 0, 0, 0, 0, 0, 0] (by rfl),
   (to_clmr_error_conditions budgetWrite cborUnit msgPlain ([], 0)).2.1 ()
      ([], 0) (by rfl),
   (to_clmr_error_conditions vecWrite cborUnit msgPlain []).2.2.1
      (fun s bs => rfl) (fun _ _ => ⟨[160], rfl⟩),
   (to_clmr_error_conditions vecWrite cborFail msgPlain []).2.2.2 [] () ()
      rfl rfl⟩

/-- Claim C7: encoding is deterministic: on any two recording, never-failing
sinks the encoder appends one and the same byte sequence, a function of the
message alone, and two `to_clmr_vec` calls return equal vectors. -/
theorem to_clmr_deterministic {σ1 σ2 ε1 ε2 ζ T : Type}
    (writeAll1 : σ1 → List Nat → Option ε1 × σ1) (bytes1 : σ1 → List Nat)
    (writeAll2 : σ2 → List Nat → Option ε2 × σ2) (bytes2 : σ2 → List Nat)
    (h1 : Recording writeAll1 bytes1) (h2 : Recording writeAll2 bytes2)
    (cborEnc : T → Except ζ (List Nat)) (msg : Message T) (w1 : σ1) (w2 : σ2) :
    bytes1 (to_clmr writeAll1 cborEnc msg w1).2 =
      bytes1 w1 ++ clmr_written cborEnc msg ∧
    bytes2 (to_clmr writeAll2 cborEnc msg w2).2 =
      bytes2 w2 ++ clmr_written cborEnc msg ∧
    to_clmr_vec cborEnc msg = to_clmr_vec cborEnc msg :=
  ⟨to_clmr_recording_spec writeAll1 bytes1 h1 cborEnc msg w1,
   to_clmr_recording_spec writeAll2 bytes2 h2 cborEnc msg w2, rfl⟩

/-- Witness for C7: two vector sinks starting from different buffers receive
the same appended bytes for the concrete encrypted message. -/
theorem to_clmr_deterministic_witness :
    id (to_clmr vecWrite cborUnit msgEnc []).2 =
      id [] ++ clmr_written cborUnit msgEnc ∧
    id (to_clmr vecWrite cborUnit msgEnc [255]).2 =
      id [255] ++ clmr_written cborUnit msgEnc ∧
    to_clmr_vec cborUnit msgEnc = to_clmr_vec cborUnit msgEnc :=
  to_clmr_deterministic vecWrite id vecWrite id
    (fun _ _ => ⟨rfl, rfl⟩) (fun _ _ => ⟨rfl, rfl⟩) cborUnit msgEnc [] [255]

/-- Claim C8: the wrappers agree with the core encoder: `to_clmr_vec` returns
exactly the bytes `to_clmr` writes and fails exactly when it fails with the
same error, and `to_clmr_string` returns a text value whose bytes are exactly
the `to_clmr_vec` result, with no validity check. -/
theorem to_clmr_wrappers_agree {ζ T : Type} (cborEnc : T → Except ζ (List Nat))
    (msg : Message T) :
    (∀ out, to_clmr_vec cborEnc msg = Except.ok out ↔
      to_clmr vecWrite cborEnc msg [] = (Except.ok (), out)) ∧
    (∀ e, to_clmr_vec cborEnc msg = Except.error e ↔
      ∃ w', to_clmr vecWrite cborEnc msg [] = (Except.error e, w')) ∧
    to_clmr_string cborEnc msg = to_clmr_vec cborEnc msg := by
  refine ⟨?_, ?_, ?_⟩
  · intro out
    rcases hr : to_clmr vecWrite cborEnc msg [] with ⟨st, o⟩
    cases st with
    | ok u =>
      cases u
      simp [to_clmr_vec, hr]
    | error e2 => simp [to_clmr_vec, hr]
  · intro e
    rcases hr : to_clmr vecWrite cborEnc msg [] with ⟨st, o⟩
    cases st with
    | ok u => simp [to_clmr_vec, hr]
    | error e2 => simp [to_clmr_vec, hr]
  · rcases hv : to_clmr_vec cborEnc msg with e | v <;>
      simp [to_clmr_string, hv]

/-- Witness for C8 at the concrete plain message. -/
theorem to_clmr_wrappers_agree_witness :
    (∀ out, to_clmr_vec cborUnit msgPlain = Except.ok out ↔
      to_clmr vecWrite cborUnit msgPlain [] = (Except.ok (), out)) ∧
    (∀ e, to_clmr_vec cborUnit msgPlain = Except.error e ↔
      ∃ w', to_clmr vecWrite cborUnit msgPlain [] = (Except.error e, w')) ∧
    to_clmr_string cborUnit msgPlain = to_clmr_vec cborUnit msgPlain :=
  to_clmr_wrappers_agree cborUnit msgPlain

/-- Claim C9: the encoder imposes no finiteness precondition on the
timestamp: for every 64-bit pattern, including those of NaN and the two
infinities, it emits the pattern's 8 big-endian bytes unchanged and succeeds
whenever the sink and the content encoding cooperate. -/
theorem to_clmr_timestamp_no_precondition {ζ T : Type}
    (cborEnc : T → Except ζ (List Nat)) (msg : Message T)
    (hc : ∀ t, msg.content = Content.Plain t → ∃ cb, cborEnc t = Except.ok cb) :
    ∃ rest, to_clmr vecWrite cborEnc msg [] =
      (Except.ok (), clmr_flags msg :: (msg.author.to_compact_vec ++
        varu64_encode msg.sequence ++ (u64_be_bytes msg.timestamp ++ rest))) := by
  rcases hmc : msg.content with mb | t
  · refine ⟨clmr_prev_bytes msg ++ (mb.to_compact_vec ++
      msg.signature.to_compact_vec), ?_⟩
    rw [to_clmr_vecWrite_spec]
    simp [clmr_status, clmr_written, clmr_header, hmc, List.append_assoc]
  · obtain ⟨cb, hcb⟩ := hc t hmc
    refine ⟨clmr_prev_bytes msg ++ (cb ++ msg.signature.to_compact_vec), ?_⟩
    rw [to_clmr_vecWrite_spec]
    simp [clmr_status, clmr_written, clmr_header, hmc, hcb, List.append_assoc]

/-- Witness for C9 at the bit patterns of NaN (`0x7FF8000000000000`) and of
positive infinity (`0x7FF0000000000000`). -/
theorem to_clmr_timestamp_no_precondition_witness :
    (∃ rest, to_clmr vecWrite cborUnit { msgPlain with timestamp := 9221120237041090560 } [] =
      (Except.ok (), clmr_flags { msgPlain with timestamp := 9221120237041090560 } ::
        (Multikey.to_compact_vec (Message.author { msgPlain with timestamp := 9221120237041090560 }) ++
         varu64_encode (Message.sequence { msgPlain with timestamp := 9221120237041090560 }) ++
         (u64_be_bytes (Message.timestamp { msgPlain with timestamp := 9221120237041090560 }) ++ rest)))) ∧
    (∃ rest, to_clmr vecWrite cborUnit { msgPlain with timestamp := 9218868437227405312 } [] =
      (Except.ok (), clmr_flags { msgPlain with timestamp := 9218868437227405312 } ::
        (Multikey.to_compact_vec (Message.author { msgPlain with timestamp := 9218868437227405312 }) ++
         varu64_encode (Message.sequence { msgPlain with timestamp := 9218868437227405312 }) ++
         (u64_be_bytes (Message.timestamp { msgPlain with timestamp := 9218868437227405312 }) ++ rest)))) :=
  ⟨to_clmr_timestamp_no_precondition cborUnit
      { msgPlain with timestamp := 9221120237041090560 } (fun _ _ => ⟨[160], rfl⟩),
   to_clmr_timestamp_no_precondition cborUnit
      { msgPlain with timestamp := 9218868437227405312 } (fun _ _ => ⟨[160], rfl⟩)⟩

/-- Claim C10: the encoder imposes no precondition on the sequence number:
every u64 value, including 0 and the maximum, is passed to the varu64
encoding with no range check, rejection or error of the encoder's own. -/
theorem to_clmr_sequence_no_precondition {ζ T : Type}
    (cborEnc : T → Except ζ (List Nat)) (msg : Message T)
    (_hseq : msg.sequence < 2 ^ 64)
    (hc : ∀ t, msg.content = Content.Plain t → ∃ cb, cborEnc t = Except.ok cb) :
    ∃ rest, to_clmr vecWrite cborEnc msg [] =
      (Except.ok (), clmr_flags msg :: (msg.author.to_compact_vec ++
        (varu64_encode msg.sequence ++ rest))) := by
  rcases hmc : msg.content with mb | t
  · refine ⟨u64_be_bytes msg.timestamp ++ (clmr_prev_bytes msg ++
      (mb.to_compact_vec ++ msg.signature.to_compact_vec)), ?_⟩
    rw [to_clmr_vecWrite_spec]
    simp [clmr_status, clmr_written, clmr_header, hmc, List.append_assoc]
  · obtain ⟨cb, hcb⟩ := hc t hmc
    refine ⟨u64_be_bytes msg.timestamp ++ (clmr_prev_bytes msg ++
      (cb ++ msg.signature.to_compact_vec)), ?_⟩
    rw [to_clmr_vecWrite_spec]
    simp [clmr_status, clmr_written, clmr_header, hmc, hcb, List.append_assoc]

/-- Witness for C10 at the boundary sequence numbers 0 and `2 ^ 64 - 1`. -/
theorem to_clmr_sequence_no_precondition_witness :
    (∃ rest, to_clmr vecWrite cborUnit { msgPlain with sequence := 0 } [] =
      (Except.ok (), clmr_flags { msgPlain with sequence := 0 } ::
        (Multikey.to_compact_vec (Message.author { msgPlain with sequence := 0 }) ++
         (varu64_encode (Message.sequence { msgPlain with sequence := 0 }) ++ rest)))) ∧
    (∃ rest, to_clmr vecWrite cborUnit { msgPlain with sequence := 18446744073709551615 } [] =
      (Except.ok (), clmr_flags { msgPlain with sequence := 18446744073709551615 } ::
        (Multikey.to_compact_vec (Message.author { msgPlain with sequence := 18446744073709551615 }) ++
         (varu64_encode (Message.sequence { msgPlain with sequence := 18446744073709551615 }) ++ rest)))) :=
  ⟨to_clmr_sequence_no_precondition cborUnit { msgPlain with sequence := 0 }
      (by norm_num) (fun _ _ => ⟨[160], rfl⟩),
   to_clmr_sequence_no_precondition cborUnit
      { msgPlain with sequence := 18446744073709551615 }
      (by norm_num) (fun _ _ => ⟨[160], rfl⟩)⟩

end Clmr
